import Mathlib

/-!
Shallow embedding of `cqparts/fasteners/utils/evaluator.py`.

The CAD kernel (cadquery / FreeCAD) is out of scope of the specification and is
modelled as a capability surface:
  * vectors are real triples with the vector algebra the code uses
    (`sub`, `dot`, `multiply`, `normalized`, `Length`);
  * a kernel edge exposes a nonempty ordered list of vertex positions
    (spec section 6: each edge exposes ordered endpoint vertices with a
    center position);
  * the boundary of an intersection result is an ordered list of such edges;
  * the solid-solid intersection itself is an abstract function argument
    `fn : Geom -> Segment -> Result`, standing for `intersect(solid, copy(wp))`;
    translate-by-zero produces a detached geometric-identity copy, invisible
    in a pure model, so the part geometry handle is passed directly.
All state (the buffered evaluation and the buffered maximum effect length) is
threaded explicitly: stateful accessors return a value paired with the updated
evaluator.
-/

namespace Cqparts

/-- Real 3-vector, modelling `cadquery.Vector`. -/
structure Vec where
  x : ℝ
  y : ℝ
  z : ℝ

namespace Vec

/-- Componentwise subtraction, modelling `Vector.sub`. -/
def sub (v w : Vec) : Vec := ⟨v.x - w.x, v.y - w.y, v.z - w.z⟩

/-- Componentwise addition, modelling `Vector.add`. -/
def add (v w : Vec) : Vec := ⟨v.x + w.x, v.y + w.y, v.z + w.z⟩

/-- Dot product, modelling `Vector.dot`. -/
def dot (v w : Vec) : ℝ := v.x * w.x + v.y * w.y + v.z * w.z

/-- Scalar multiple (returns a scaled copy), modelling `Vector.multiply`. -/
def multiply (v : Vec) (c : ℝ) : Vec := ⟨c * v.x, c * v.y, c * v.z⟩

/-- Euclidean length, modelling `Vector.Length`. -/
noncomputable def length (v : Vec) : ℝ := Real.sqrt (v.dot v)

/-- Unit-scaled copy, modelling `Vector.normalized()` (division by the length;
the kernel raises on a zero vector, where this total model returns the zero
vector since `1 / 0 = 0` in Lean). -/
noncomputable def normalized (v : Vec) : Vec := v.multiply (1 / v.length)

end Vec

/-- Kernel edge: a nonempty ordered list of vertex positions
(`edge.Vertices()[i].Center()`), kept as a head plus a tail. -/
structure Edge where
  vfirst : Vec
  vrest : List Vec

namespace Edge

/-- The ordered vertex list of the edge. -/
def vertices (e : Edge) : List Vec := e.vfirst :: e.vrest

/-- The last vertex of the edge (`edge.Vertices()[-1].Center()`). -/
def lastVertex (e : Edge) : Vec := e.vertices.getLast (List.cons_ne_nil _ _)

end Edge

/-- A directed line segment, modelling the probe wire built by
`Edge.makeLine` / `Wire.assembleEdges` / `Workplane.newObject`. -/
structure Segment where
  p1 : Vec
  p2 : Vec

/-- Boundary of an intersection result: the ordered edge list exposed both by
`result.edges().objects` and by `result.wire().val().Edges()`. -/
abbrev Result := List Edge

/-- Bounding box data the sizer reads: `bb.center` and `bb.DiagonalLength`. -/
structure BBox where
  center : Vec
  diagonalLength : ℝ

/-- Opaque handle to a part's positioned geometry (`part.object`), the operand
handed to the kernel intersection. -/
abbrev Geom := Nat

/-- Candidate part: `part.object.findSolid()` either resolves to a solid with a
bounding box (`some`) or does not resolve (`none`), and `part.object` is the
geometry handle used for the intersection. -/
structure Part where
  solid? : Option BBox
  object : Geom

/-- Effect record, modelling class `Effect`. -/
structure Effect where
  origin : Vec
  direction : Vec
  part : Part
  result : Result

namespace Effect

/-- Constructor semantics of `Effect.__init__`: the direction is normalized
(forced to a unit vector); everything else is stored as given. -/
noncomputable def make (origin direction : Vec) (part : Part) (result : Result) : Effect :=
  { origin := origin
    direction := direction.normalized
    part := part
    result := result }

/-- First vertex of the first edge of the result boundary
(`self.result.wire().val().Edges()[0].Vertices()[0].Center()`); `none` when the
list indexing would raise on an empty edge list. -/
def start_point? (e : Effect) : Option Vec := e.result.head?.map (fun ed => ed.vfirst)

/-- Last vertex of the last edge of the result boundary
(`self.result.wire().val().Edges()[-1].Vertices()[-1].Center()`); `none` when
the list indexing would raise on an empty edge list. -/
def end_point? (e : Effect) : Option Vec := e.result.getLast?.map (fun ed => ed.lastVertex)

/-- Sort key of `Effect.origin_displacement`:
`self.start_point.sub(self.origin).dot(self.direction)`. The `none` branch is
an arbitrary total-function default: there Python would raise an IndexError;
the evaluator only ever sorts truthy effects, whose start point exists. -/
noncomputable def origin_displacement (e : Effect) : ℝ :=
  match e.start_point? with
  | some p => (p.sub e.origin).dot e.direction
  | none => 0

/-- Truthiness of an effect (`Effect.__bool__`): whether
`self.result.edges().objects` is nonempty. -/
def toBool (e : Effect) : Bool := !e.result.isEmpty

/-- Comparison `Effect.__lt__`. -/
noncomputable def lt (a b : Effect) : Prop := a.origin_displacement < b.origin_displacement

/-- Comparison `Effect.__le__`. -/
noncomputable def le (a b : Effect) : Prop := a.origin_displacement ≤ b.origin_displacement

/-- Comparison `Effect.__gt__`. -/
noncomputable def gt (a b : Effect) : Prop := a.origin_displacement > b.origin_displacement

/-- Comparison `Effect.__ge__`. -/
noncomputable def ge (a b : Effect) : Prop := a.origin_displacement ≥ b.origin_displacement

/-- Boolean comparison used for the stable ascending sort: Python's `sorted`
orders by the overloaded comparisons, i.e. ascending `origin_displacement`. -/
noncomputable def leb (a b : Effect) : Bool := decide (a.origin_displacement ≤ b.origin_displacement)

end Effect

/-- Evaluator state, modelling class `Evaluator`: the construction parameters
plus the evaluation buffer (`self._evaluation`) and the buffer the
`property_buffered` decorator keeps for `max_effect_length`. -/
structure Evaluator where
  parts : List Part
  start : Vec
  dir : Vec
  _evaluation : Option (List Effect)
  mel_buffer : Option ℝ

/-- Constructor `Evaluator.__init__`: stores the parameters (vector casting by
`_casting.vector` is out of scope; vectors are supplied directly) and leaves
both buffers unset. -/
def mkEvaluator (parts : List Part) (start dir : Vec) : Evaluator :=
  { parts := parts
    start := start
    dir := dir
    _evaluation := none
    mel_buffer := none }

namespace Evaluator

/-- Clearance contributions of the resolvable parts, in part order: the body of
`max_length_iter` — parts whose solid does not resolve are skipped, a resolving
part yields `bb.center.sub(self.start).Length + bb.DiagonalLength / 2`. -/
noncomputable def contributions (parts : List Part) (start : Vec) : List ℝ :=
  parts.filterMap (fun part =>
    part.solid?.map (fun bb => (bb.center.sub start).length + bb.diagonalLength / 2))

/-- Body of the `max_effect_length` property: `max(max_length_iter())`, with the
ValueError raised by `max` on an exhausted iterator caught and turned into 0. -/
noncomputable def melValue (parts : List Part) (start : Vec) : ℝ :=
  match contributions parts start with
  | [] => 0
  | v :: vs => vs.foldl max v

/-- Modelled from the spec: the `property_buffered` decorator from
`cqparts.utils.misc` (imported by the evaluator module but not among the
sources) — a lazy memoized attribute, "an explicit optional/cached field plus
an accessor that computes-and-stores on first access". A buffered read returns
the stored value unchanged when present, otherwise computes the property body
once and stores it. -/
noncomputable def max_effect_length (ev : Evaluator) : ℝ × Evaluator :=
  match ev.mel_buffer with
  | some v => (v, ev)
  | none => (melValue ev.parts ev.start, { ev with mel_buffer := some (melValue ev.parts ev.start) })

/-- The probe segment built by `perform_evaluation` for a maximum effect length
L: `Edge.makeLine(self.start, self.dir.normalized().multiply(L + 1))`. Note the
second endpoint is the scaled direction alone; `self.start` is not added. -/
noncomputable def probe (start dir : Vec) (L : ℝ) : Segment :=
  { p1 := start
    p2 := dir.normalized.multiply (L + 1) }

/-- The effect list accumulated by the loop in `perform_evaluation`: one effect
per part, from intersecting the part's geometry with the probe, keeping only
truthy effects (`if effect: effect_list.append(effect)`). -/
noncomputable def effectList (fn : Geom → Segment → Result) (ev : Evaluator) (L : ℝ) : List Effect :=
  (ev.parts.map (fun part =>
    Effect.make ev.start ev.dir part (fn part.object (probe ev.start ev.dir L)))).filter
    (fun e => e.toBool)

/-- Method `Evaluator.perform_evaluation`, with the kernel intersection
`intersect(part.object.translate((0,0,0)), copy(wp))` abstracted as `fn`:
if the buffered `max_effect_length` is falsy (zero) return the empty list;
otherwise build the probe, collect the truthy effects in part order, and
return them sorted ascending by origin displacement (`sorted(effect_list)`,
a stable sort through the overloaded comparisons). -/
noncomputable def perform_evaluation (fn : Geom → Segment → Result) (ev : Evaluator) :
    List Effect × Evaluator :=
  let r := max_effect_length ev
  if r.1 = 0 then ([], r.2)
  else ((effectList fn ev r.1).mergeSort Effect.leb, r.2)

/-- Property `Evaluator.eval`: when `self._evaluation is None` compute
`perform_evaluation` and store it, otherwise return the buffer untouched. -/
noncomputable def eval (fn : Geom → Segment → Result) (ev : Evaluator) :
    List Effect × Evaluator :=
  match ev._evaluation with
  | some r => (r, ev)
  | none =>
    let pr := perform_evaluation fn ev
    (pr.1, { pr.2 with _evaluation := some pr.1 })

/-- Method `Evaluator.clear`: `self._evaluation = None`. -/
def clear (ev : Evaluator) : Evaluator := { ev with _evaluation := none }

end Evaluator

/-- Subclass `VectorEvaluator(Evaluator)` whose body is only `pass`: it
declares no field and overrides no method, so its instances are plain
evaluators and every operation resolves to the base class implementation. -/
def VectorEvaluator : Type := Evaluator

/-- Inherited constructor of `VectorEvaluator`. -/
def mkVectorEvaluator (parts : List Part) (start dir : Vec) : VectorEvaluator :=
  mkEvaluator parts start dir

/-- Subclass `CylinderEvaluator(Evaluator)` whose body is only `pass`. -/
def CylinderEvaluator : Type := Evaluator

/-- Inherited constructor of `CylinderEvaluator`. -/
def mkCylinderEvaluator (parts : List Part) (start dir : Vec) : CylinderEvaluator :=
  mkEvaluator parts start dir

/-! Concrete sample data used to exercise the definitions. -/

/-- Sample part: a resolvable solid whose bounding box is centred at
(11, 0, 0) with space diagonal 2. -/
noncomputable def partA : Part :=
  { solid? := some { center := ⟨11, 0, 0⟩, diagonalLength := 2 }
    object := 0 }

/-- Sample part: a resolvable solid whose bounding box is centred at
(3, 4, 0) with space diagonal 2. -/
noncomputable def partB : Part :=
  { solid? := some { center := ⟨3, 4, 0⟩, diagonalLength := 2 }
    object := 1 }

/-- Sample part with no resolvable solid. -/
def partNone : Part :=
  { solid? := none
    object := 2 }

/-- Sample intersection capability: every intersection yields one edge whose
single vertex sits at the probe's far endpoint, making the probe geometry the
evaluator builds observable in its output. -/
def revealFn : Geom → Segment → Result := fun _ seg => [⟨seg.p2, []⟩]

/-- Sample intersection capability: every intersection is empty. -/
def emptyFn : Geom → Segment → Result := fun _ _ => []

/-- Sample evaluator: one candidate (`partA`), start (10, 0, 0),
direction (1, 0, 0). -/
noncomputable def evX : Evaluator := mkEvaluator [partA] ⟨10, 0, 0⟩ ⟨1, 0, 0⟩

/-- Sample evaluator with an empty candidate list. -/
noncomputable def evEmpty : Evaluator := mkEvaluator [] ⟨0, 0, 0⟩ ⟨1, 0, 0⟩

/-- Sample evaluator with a resolvable and an unresolvable candidate. -/
noncomputable def evB : Evaluator := mkEvaluator [partB, partNone] ⟨0, 0, 0⟩ ⟨1, 0, 0⟩

/-- Sample evaluator whose maximum-effect-length buffer is already set to 7. -/
noncomputable def evMel7 : Evaluator :=
  { parts := []
    start := ⟨0, 0, 0⟩
    dir := ⟨1, 0, 0⟩
    _evaluation := none
    mel_buffer := some 7 }

/-- Sample evaluator whose evaluation buffer holds the empty sequence. -/
noncomputable def evCachedEmpty : Evaluator :=
  { parts := []
    start := ⟨0, 0, 0⟩
    dir := ⟨1, 0, 0⟩
    _evaluation := some []
    mel_buffer := none }

/-- Sample truthy effect: its result has one edge with two vertices. -/
noncomputable def effTruthy : Effect :=
  { origin := ⟨0, 0, 0⟩
    direction := ⟨1, 0, 0⟩
    part := partNone
    result := [⟨⟨1, 2, 3⟩, [⟨4, 5, 6⟩]⟩] }

/-- Sample falsy effect: its result has no edge. -/
noncomputable def effFalsy : Effect :=
  { origin := ⟨0, 0, 0⟩
    direction := ⟨1, 0, 0⟩
    part := partNone
    result := [] }

/-! Helper lemmas about the vector algebra. -/

/-- The dot product of a vector with itself is nonnegative. -/
theorem Vec.dot_self_nonneg (v : Vec) : 0 ≤ v.dot v := by
  have hx := mul_self_nonneg v.x
  have hy := mul_self_nonneg v.y
  have hz := mul_self_nonneg v.z
  simp only [Vec.dot]
  linarith

/-- The dot product of a nonzero vector with itself is positive. -/
theorem Vec.dot_self_pos (v : Vec) (h : v ≠ ⟨0, 0, 0⟩) : 0 < v.dot v := by
  rcases lt_or_eq_of_le (Vec.dot_self_nonneg v) with hlt | heq
  · exact hlt
  · exfalso
    apply h
    rcases v with ⟨x, y, z⟩
    simp only [Vec.dot] at heq
    have hx := mul_self_nonneg x
    have hy := mul_self_nonneg y
    have hz := mul_self_nonneg z
    have hx0 : x * x = 0 := by linarith
    have hy0 : y * y = 0 := by linarith
    have hz0 : z * z = 0 := by linarith
    simp only [Vec.mk.injEq]
    exact ⟨mul_self_eq_zero.mp hx0, mul_self_eq_zero.mp hy0, mul_self_eq_zero.mp hz0⟩

/-- The length of a nonzero vector is positive. -/
theorem Vec.length_pos (v : Vec) (h : v ≠ ⟨0, 0, 0⟩) : 0 < v.length :=
  Real.sqrt_pos.mpr (Vec.dot_self_pos v h)

/-- Scaling a vector scales its length by the absolute scale factor. -/
theorem Vec.length_multiply (v : Vec) (c : ℝ) : (v.multiply c).length = |c| * v.length := by
  simp only [Vec.length, Vec.multiply, Vec.dot]
  have harg : c * v.x * (c * v.x) + c * v.y * (c * v.y) + c * v.z * (c * v.z)
      = c ^ 2 * (v.x * v.x + v.y * v.y + v.z * v.z) := by ring
  rw [harg, Real.sqrt_mul (sq_nonneg c), Real.sqrt_sq_eq_abs]

/-- Normalizing a nonzero vector yields a unit vector. -/
theorem Vec.length_normalized (v : Vec) (h : v ≠ ⟨0, 0, 0⟩) : v.normalized.length = 1 := by
  have hpos := Vec.length_pos v h
  rw [Vec.normalized, Vec.length_multiply, abs_of_pos (by positivity : (0:ℝ) < 1 / v.length)]
  field_simp

/-! Helper lemmas about folded maxima. -/

/-- The folded maximum is one of the folded values. -/
theorem foldl_max_mem (vs : List ℝ) : ∀ v : ℝ, vs.foldl max v ∈ v :: vs := by
  induction vs with
  | nil => intro v; simp
  | cons w ws ih =>
    intro v
    rw [List.foldl_cons]
    have h := ih (max v w)
    rcases List.mem_cons.mp h with h1 | h1
    · rw [h1]
      rcases max_choice v w with h2 | h2 <;> rw [h2]
      · exact List.mem_cons_self _ _
      · exact List.mem_cons_of_mem _ (List.mem_cons_self _ _)
    · exact List.mem_cons_of_mem _ (List.mem_cons_of_mem _ h1)

/-- Every folded value is at most the folded maximum. -/
theorem le_foldl_max (vs : List ℝ) : ∀ v : ℝ, ∀ x ∈ v :: vs, x ≤ vs.foldl max v := by
  induction vs with
  | nil => intro v x hx; simp at hx; simp [hx]
  | cons w ws ih =>
    intro v x hx
    have hseed : max v w ≤ ws.foldl max (max v w) :=
      ih (max v w) (max v w) (List.mem_cons_self _ _)
    rcases List.mem_cons.mp hx with h1 | h1
    · subst h1
      exact le_trans (le_max_left _ _) hseed
    · rcases List.mem_cons.mp h1 with h2 | h2
      · subst h2
        exact le_trans (le_max_right _ _) hseed
      · exact ih (max v w) x (List.mem_cons_of_mem _ h2)

/-! Concrete evaluations on the sample data. -/

/-- The unit x-vector has length 1. -/
theorem length_unitX : Vec.length ⟨1, 0, 0⟩ = 1 := by
  have h : (⟨1, 0, 0⟩ : Vec).dot ⟨1, 0, 0⟩ = 1 := by
    simp only [Vec.dot]
    norm_num
  rw [Vec.length, h, Real.sqrt_one]

/-- The vector (3, 4, 0) has length 5. -/
theorem length_345 : Vec.length ⟨3, 4, 0⟩ = 5 := by
  have h : (⟨3, 4, 0⟩ : Vec).dot ⟨3, 4, 0⟩ = 5 ^ 2 := by
    simp only [Vec.dot]
    norm_num
  rw [Vec.length, h, Real.sqrt_sq (by norm_num : (0:ℝ) ≤ 5)]

/-- The unit x-vector is its own normalization. -/
theorem normalized_unitX : Vec.normalized ⟨1, 0, 0⟩ = ⟨1, 0, 0⟩ := by
  rw [Vec.normalized, length_unitX]
  simp only [Vec.multiply, Vec.mk.injEq]
  norm_num

/-- The maximum effect length of the sample evaluator is 2:
its only candidate has its bounding-box centre one unit from the start point
and half-diagonal 1. -/
theorem evX_melValue : Evaluator.melValue [partA] ⟨10, 0, 0⟩ = 2 := by
  have hsub : (⟨11, 0, 0⟩ : Vec).sub ⟨10, 0, 0⟩ = ⟨1, 0, 0⟩ := by
    simp only [Vec.sub, Vec.mk.injEq]
    norm_num
  have hred : Evaluator.melValue [partA] ⟨10, 0, 0⟩
      = ((⟨11, 0, 0⟩ : Vec).sub ⟨10, 0, 0⟩).length + 2 / 2 := rfl
  rw [hred, hsub, length_unitX]
  norm_num

/-- The buffered maximum-effect-length read on the fresh sample evaluator. -/
theorem evX_mel : Evaluator.max_effect_length evX = (2, { evX with mel_buffer := some 2 }) := by
  have h : Evaluator.max_effect_length evX =
      (Evaluator.melValue [partA] ⟨10, 0, 0⟩,
        { evX with mel_buffer := some (Evaluator.melValue [partA] ⟨10, 0, 0⟩) }) := rfl
  rw [h, evX_melValue]

/-- The probe built for the sample evaluator ends at (3, 0, 0). -/
theorem evX_probe : Evaluator.probe ⟨10, 0, 0⟩ ⟨1, 0, 0⟩ 2 = ⟨⟨10, 0, 0⟩, ⟨3, 0, 0⟩⟩ := by
  rw [Evaluator.probe, normalized_unitX]
  simp only [Vec.multiply, Segment.mk.injEq, Vec.mk.injEq]
  norm_num

/-- The effect list of the sample evaluator under the revealing intersection. -/
theorem evX_effectList : Evaluator.effectList revealFn evX 2 =
    [Effect.make ⟨10, 0, 0⟩ ⟨1, 0, 0⟩ partA [⟨⟨3, 0, 0⟩, []⟩]] := by
  unfold Evaluator.effectList
  have hp : evX.parts = [partA] := rfl
  have hs : evX.start = ⟨10, 0, 0⟩ := rfl
  have hd : evX.dir = ⟨1, 0, 0⟩ := rfl
  rw [hp, hs, hd, evX_probe]
  simp only [List.map_cons, List.map_nil, revealFn]
  rw [List.filter_cons]
  simp only [Effect.toBool, Effect.make, List.isEmpty_cons, Bool.not_false, if_true,
    List.filter_nil]

/-- Full evaluation of the sample evaluator under the revealing intersection:
one effect, whose result edge sits at the probe's far endpoint. -/
theorem evX_perform : Evaluator.perform_evaluation revealFn evX =
    ([Effect.make ⟨10, 0, 0⟩ ⟨1, 0, 0⟩ partA [⟨⟨3, 0, 0⟩, []⟩]],
      { evX with mel_buffer := some 2 }) := by
  unfold Evaluator.perform_evaluation
  rw [evX_mel]
  dsimp only
  rw [if_neg (by norm_num : (2:ℝ) ≠ 0)]
  rw [evX_effectList, List.mergeSort_singleton]

/-- Reduction of `melValue` when no candidate contributes. -/
theorem melValue_of_contributions_nil (parts : List Part) (start : Vec)
    (h : Evaluator.contributions parts start = []) : Evaluator.melValue parts start = 0 := by
  unfold Evaluator.melValue
  rw [h]

/-- Reduction of `melValue` when the contribution list is nonempty. -/
theorem melValue_of_contributions_cons (parts : List Part) (start : Vec) (v : ℝ) (vs : List ℝ)
    (h : Evaluator.contributions parts start = v :: vs) :
    Evaluator.melValue parts start = vs.foldl max v := by
  unfold Evaluator.melValue
  rw [h]

/-! Claim theorems. -/

/-- C1 (code bug exhibit): the probe segment that `perform_evaluation` builds
does not run from `start` along the direction — its second endpoint is the
unit direction scaled by L + 1 with `start` never added. For the evaluator
with one candidate centred at (11, 0, 0) (half-diagonal 1), start (10, 0, 0)
and direction (1, 0, 0): L = 2, the probe the code casts ends at (3, 0, 0)
(observable in the evaluation output through an intersection capability that
reports the probe's far endpoint), while the segment the claim describes ends
at start + unit * (L + 1) = (13, 0, 0). -/
theorem probe_second_endpoint_omits_start :
    (Evaluator.max_effect_length evX).1 = 2 ∧
    Evaluator.probe evX.start evX.dir 2 = ⟨⟨10, 0, 0⟩, ⟨3, 0, 0⟩⟩ ∧
    (Evaluator.perform_evaluation revealFn evX).1.map (fun e => e.start_point?)
      = [some ⟨3, 0, 0⟩] ∧
    Vec.add ⟨10, 0, 0⟩ ((Vec.normalized ⟨1, 0, 0⟩).multiply (2 + 1)) = ⟨13, 0, 0⟩ ∧
    (⟨3, 0, 0⟩ : Vec) ≠ ⟨13, 0, 0⟩ := by
  refine ⟨by rw [evX_mel], evX_probe, ?_, ?_, ?_⟩
  · rw [evX_perform]
    simp only [List.map_cons, List.map_nil, Effect.make, Effect.start_point?, List.head?_cons,
      Option.map_some']
  · rw [normalized_unitX]
    simp only [Vec.multiply, Vec.add, Vec.mk.injEq]
    norm_num
  · intro hcontra
    have hx := congrArg Vec.x hcontra
    norm_num at hx

/-- C2: on a fresh evaluator the buffered `max_effect_length` is the value of
the property body; a resolvable candidate contributes the distance from
`start` to its bounding-box centre plus half the box diagonal, an unresolvable
candidate contributes nothing; the result is the maximum contribution, and 0
when there is none. -/
theorem max_effect_length_is_max (ev : Evaluator) (h : ev.mel_buffer = none) :
    (Evaluator.max_effect_length ev).1 = Evaluator.melValue ev.parts ev.start ∧
    (∀ (p : Part) (parts : List Part) (start : Vec), p.solid? = none →
      Evaluator.contributions (p :: parts) start = Evaluator.contributions parts start) ∧
    (∀ (p : Part) (parts : List Part) (start : Vec) (bb : BBox), p.solid? = some bb →
      Evaluator.contributions (p :: parts) start
        = ((bb.center.sub start).length + bb.diagonalLength / 2)
          :: Evaluator.contributions parts start) ∧
    (Evaluator.contributions ev.parts ev.start = [] →
      Evaluator.melValue ev.parts ev.start = 0) ∧
    (Evaluator.contributions ev.parts ev.start ≠ [] →
      Evaluator.melValue ev.parts ev.start ∈ Evaluator.contributions ev.parts ev.start) ∧
    (∀ x ∈ Evaluator.contributions ev.parts ev.start,
      x ≤ Evaluator.melValue ev.parts ev.start) := by
  refine ⟨?_, ?_, ?_, melValue_of_contributions_nil ev.parts ev.start, ?_, ?_⟩
  · unfold Evaluator.max_effect_length
    rw [h]
  · intro p parts start hnone
    unfold Evaluator.contributions
    rw [List.filterMap_cons, hnone]
    rfl
  · intro p parts start bb hsome
    unfold Evaluator.contributions
    rw [List.filterMap_cons, hsome]
    rfl
  · intro hne
    obtain ⟨v, vs, hv⟩ := List.exists_cons_of_ne_nil hne
    rw [melValue_of_contributions_cons ev.parts ev.start v vs hv, hv]
    exact foldl_max_mem vs v
  · intro x hx
    rcases hc : Evaluator.contributions ev.parts ev.start with _ | ⟨v, vs⟩
    · rw [hc] at hx
      simp at hx
    · rw [hc] at hx
      rw [melValue_of_contributions_cons ev.parts ev.start v vs hc]
      exact le_foldl_max vs v x hx

/-- Witness for C2: the sample with one resolvable candidate (centre (3, 4, 0),
half-diagonal 1) and one unresolvable candidate. -/
theorem max_effect_length_is_max_w :
    evB.mel_buffer = none ∧
    ((Evaluator.max_effect_length evB).1 = Evaluator.melValue evB.parts evB.start ∧
      (Evaluator.contributions evB.parts evB.start ≠ [] →
        Evaluator.melValue evB.parts evB.start ∈ Evaluator.contributions evB.parts evB.start)) := by
  have h := max_effect_length_is_max evB rfl
  exact ⟨rfl, h.1, h.2.2.2.2.1⟩

/-- C3: when the buffered maximum effect length is zero, `perform_evaluation`
returns the empty list — for every intersection capability, so no intersection
is consulted — and a fresh `eval` read yields the empty sequence. -/
theorem perform_evaluation_empty_on_zero (ev : Evaluator) (fn : Geom → Segment → Result)
    (h : (Evaluator.max_effect_length ev).1 = 0) :
    (Evaluator.perform_evaluation fn ev).1 = [] ∧
    (ev._evaluation = none → (Evaluator.eval fn ev).1 = []) := by
  have h1 : (Evaluator.perform_evaluation fn ev).1 = [] := by
    unfold Evaluator.perform_evaluation
    dsimp only
    rw [if_pos h]
  refine ⟨h1, ?_⟩
  intro hev
  unfold Evaluator.eval
  rw [hev]
  dsimp only
  exact h1

/-- Witness for C3: the evaluator with no candidates. -/
theorem perform_evaluation_empty_on_zero_w :
    (Evaluator.max_effect_length evEmpty).1 = 0 ∧ evEmpty._evaluation = none ∧
    (Evaluator.perform_evaluation revealFn evEmpty).1 = [] ∧
    (Evaluator.eval revealFn evEmpty).1 = [] := by
  have h0 : (Evaluator.max_effect_length evEmpty).1 = 0 := rfl
  have h := perform_evaluation_empty_on_zero evEmpty revealFn h0
  exact ⟨h0, rfl, h.1, h.2 rfl⟩

/-- C4: an effect is truthy exactly when its result boundary has at least one
edge, and every effect an evaluation returns is truthy — falsy effects are
filtered out of the output. -/
theorem effect_truthiness_and_filtering :
    (∀ e : Effect, e.toBool = true ↔ e.result ≠ []) ∧
    (∀ (fn : Geom → Segment → Result) (ev : Evaluator),
      ∀ e ∈ (Evaluator.perform_evaluation fn ev).1, e.toBool = true) := by
  constructor
  · intro e
    simp [Effect.toBool, List.isEmpty_iff]
  · intro fn ev e he
    unfold Evaluator.perform_evaluation at he
    dsimp only at he
    by_cases h : (Evaluator.max_effect_length ev).1 = 0
    · rw [if_pos h] at he
      simp at he
    · rw [if_neg h] at he
      have hmem := List.mem_mergeSort.mp he
      unfold Evaluator.effectList at hmem
      exact (List.mem_filter.mp hmem).2

/-- Witness for C4: the single effect returned on the sample evaluator is
truthy. -/
theorem effect_truthiness_and_filtering_w :
    Effect.make ⟨10, 0, 0⟩ ⟨1, 0, 0⟩ partA [⟨⟨3, 0, 0⟩, []⟩]
      ∈ (Evaluator.perform_evaluation revealFn evX).1 ∧
    (Effect.make ⟨10, 0, 0⟩ ⟨1, 0, 0⟩ partA [⟨⟨3, 0, 0⟩, []⟩]).toBool = true := by
  have hm : Effect.make ⟨10, 0, 0⟩ ⟨1, 0, 0⟩ partA [⟨⟨3, 0, 0⟩, []⟩]
      ∈ (Evaluator.perform_evaluation revealFn evX).1 := by
    rw [evX_perform]
    exact List.mem_cons_self _ _
  exact ⟨hm, effect_truthiness_and_filtering.2 revealFn evX _ hm⟩

/-- C5: the four comparison operators are determined solely by
`origin_displacement` (they are invariant under replacing the operands by any
effects with the same displacements, and each is equivalent to the
corresponding order on the displacements); the returned sequence is ascending
in `origin_displacement`; and effects with equal displacement keep their
relative candidate-list order (the equal-displacement subsequence of the
output equals that of the input-ordered truthy effect list). -/
theorem effects_sorted_and_stable :
    (∀ a b a2 b2 : Effect, a.origin_displacement = a2.origin_displacement →
      b.origin_displacement = b2.origin_displacement →
      ((Effect.lt a b ↔ Effect.lt a2 b2) ∧ (Effect.le a b ↔ Effect.le a2 b2) ∧
        (Effect.gt a b ↔ Effect.gt a2 b2) ∧ (Effect.ge a b ↔ Effect.ge a2 b2))) ∧
    (∀ a b : Effect,
      (Effect.lt a b ↔ a.origin_displacement < b.origin_displacement) ∧
      (Effect.le a b ↔ a.origin_displacement ≤ b.origin_displacement) ∧
      (Effect.gt a b ↔ a.origin_displacement > b.origin_displacement) ∧
      (Effect.ge a b ↔ a.origin_displacement ≥ b.origin_displacement)) ∧
    (∀ (fn : Geom → Segment → Result) (ev : Evaluator),
      (Evaluator.perform_evaluation fn ev).1.Pairwise
        (fun a b => a.origin_displacement ≤ b.origin_displacement)) ∧
    (∀ (fn : Geom → Segment → Result) (ev : Evaluator) (d : ℝ),
      (Evaluator.max_effect_length ev).1 ≠ 0 →
      (Evaluator.perform_evaluation fn ev).1.filter
          (fun e => decide (e.origin_displacement = d))
        = (Evaluator.effectList fn ev (Evaluator.max_effect_length ev).1).filter
          (fun e => decide (e.origin_displacement = d))) := by
  have htrans : ∀ a b c : Effect, Effect.leb a b → Effect.leb b c → Effect.leb a c := by
    intro a b c h1 h2
    simp only [Effect.leb, decide_eq_true_eq] at h1 h2 ⊢
    exact le_trans h1 h2
  have htotal : ∀ a b : Effect, Effect.leb a b || Effect.leb b a := by
    intro a b
    simp only [Effect.leb, Bool.or_eq_true, decide_eq_true_eq]
    exact le_total _ _
  refine ⟨?_, ?_, ?_, ?_⟩
  · intro a b a2 b2 ha hb
    unfold Effect.lt Effect.le Effect.gt Effect.ge
    rw [ha, hb]
    exact ⟨Iff.rfl, Iff.rfl, Iff.rfl, Iff.rfl⟩
  · intro a b
    exact ⟨Iff.rfl, Iff.rfl, Iff.rfl, Iff.rfl⟩
  · intro fn ev
    unfold Evaluator.perform_evaluation
    dsimp only
    by_cases h : (Evaluator.max_effect_length ev).1 = 0
    · rw [if_pos h]
      simp
    · rw [if_neg h]
      have hs := List.sorted_mergeSort htrans htotal
        (Evaluator.effectList fn ev (Evaluator.max_effect_length ev).1)
      exact hs.imp (fun hab => by
        simpa only [Effect.leb, decide_eq_true_eq] using hab)
  · intro fn ev d hL
    unfold Evaluator.perform_evaluation
    dsimp only
    rw [if_neg hL]
    have hall : ∀ e ∈ (Evaluator.effectList fn ev (Evaluator.max_effect_length ev).1).filter
        (fun e => decide (e.origin_displacement = d)),
        (fun e : Effect => decide (e.origin_displacement = d)) e = true := by
      intro e hme
      exact (List.mem_filter.mp hme).2
    have hpair : ((Evaluator.effectList fn ev (Evaluator.max_effect_length ev).1).filter
        (fun e => decide (e.origin_displacement = d))).Pairwise
        (fun a b => Effect.leb a b = true) := by
      apply List.pairwise_of_forall_mem_list
      intro a ha b hb
      have hpa := (List.mem_filter.mp ha).2
      have hpb := (List.mem_filter.mp hb).2
      simp only [decide_eq_true_eq] at hpa hpb
      simp [Effect.leb, hpa, hpb]
    have hsub : List.Sublist
        ((Evaluator.effectList fn ev (Evaluator.max_effect_length ev).1).filter
          (fun e => decide (e.origin_displacement = d)))
        ((Evaluator.effectList fn ev (Evaluator.max_effect_length ev).1).mergeSort
          Effect.leb) :=
      List.sublist_mergeSort htrans htotal hpair (List.filter_sublist _)
    have hsub2 : List.Sublist
        ((Evaluator.effectList fn ev (Evaluator.max_effect_length ev).1).filter
          (fun e => decide (e.origin_displacement = d)))
        (((Evaluator.effectList fn ev (Evaluator.max_effect_length ev).1).mergeSort
          Effect.leb).filter (fun e => decide (e.origin_displacement = d))) := by
      have h2 := hsub.filter (fun e => decide (e.origin_displacement = d))
      rwa [List.filter_eq_self.mpr hall] at h2
    have hlen : ((Evaluator.effectList fn ev (Evaluator.max_effect_length ev).1).filter
        (fun e => decide (e.origin_displacement = d))).length
        = (((Evaluator.effectList fn ev (Evaluator.max_effect_length ev).1).mergeSort
          Effect.leb).filter (fun e => decide (e.origin_displacement = d))).length := by
      have hperm := (List.mergeSort_perm
        (Evaluator.effectList fn ev (Evaluator.max_effect_length ev).1) Effect.leb).filter
        (fun e => decide (e.origin_displacement = d))
      exact hperm.length_eq.symm
    exact (hsub2.eq_of_length hlen).symm

/-- Witness for C5: the stability conjunct at the sample evaluator (whose
maximum effect length is 2, hence nonzero) and displacement 0. -/
theorem effects_sorted_and_stable_w :
    (Evaluator.max_effect_length evX).1 ≠ 0 ∧
    (Evaluator.perform_evaluation revealFn evX).1.filter
        (fun e => decide (e.origin_displacement = 0))
      = (Evaluator.effectList revealFn evX (Evaluator.max_effect_length evX).1).filter
        (fun e => decide (e.origin_displacement = 0)) := by
  have hne : (Evaluator.max_effect_length evX).1 ≠ 0 := by
    rw [evX_mel]
    norm_num
  exact ⟨hne, effects_sorted_and_stable.2.2.2 revealFn evX 0 hne⟩

/-- C6: the constructor normalizes the direction — for any nonzero input
direction the stored direction is a unit vector — and the origin displacement
is the signed scalar projection of (start point − origin) onto that stored
unit direction. -/
theorem effect_direction_unit_and_displacement (origin direction : Vec) (p : Part)
    (result : Result) (h : direction ≠ ⟨0, 0, 0⟩) :
    (Effect.make origin direction p result).direction.length = 1 ∧
    (∀ sp, (Effect.make origin direction p result).start_point? = some sp →
      (Effect.make origin direction p result).origin_displacement
        = (sp.sub origin).dot direction.normalized) := by
  constructor
  · exact Vec.length_normalized direction h
  · intro sp hsp
    unfold Effect.origin_displacement
    rw [hsp]
    rfl

/-- Witness for C6: input direction (3, 4, 0) of length 5. -/
theorem effect_direction_unit_and_displacement_w :
    ((⟨3, 4, 0⟩ : Vec) ≠ ⟨0, 0, 0⟩) ∧
    (Effect.make ⟨0, 0, 0⟩ ⟨3, 4, 0⟩ partNone [⟨⟨1, 2, 3⟩, []⟩]).direction.length = 1 ∧
    (Effect.make ⟨0, 0, 0⟩ ⟨3, 4, 0⟩ partNone [⟨⟨1, 2, 3⟩, []⟩]).origin_displacement
      = ((⟨1, 2, 3⟩ : Vec).sub ⟨0, 0, 0⟩).dot (Vec.normalized ⟨3, 4, 0⟩) := by
  have hne : (⟨3, 4, 0⟩ : Vec) ≠ ⟨0, 0, 0⟩ := by
    intro hc
    have hx := congrArg Vec.x hc
    norm_num at hx
  have h := effect_direction_unit_and_displacement ⟨0, 0, 0⟩ ⟨3, 4, 0⟩ partNone
    [⟨⟨1, 2, 3⟩, []⟩] hne
  exact ⟨hne, h.1, h.2 ⟨1, 2, 3⟩ rfl⟩

/-- C7: a read of the buffered evaluation with the buffer set returns exactly
the buffered sequence and leaves the state unchanged, whatever the
intersection capability (so nothing is recomputed); consequently two
consecutive reads — even under different intersection capabilities — return
element-wise identical sequences, including when the buffered result is the
empty sequence. -/
theorem eval_buffered_stable :
    (∀ (fn : Geom → Segment → Result) (ev : Evaluator) (r : List Effect),
      ev._evaluation = some r → Evaluator.eval fn ev = (r, ev)) ∧
    (∀ (fn fn' : Geom → Segment → Result) (ev : Evaluator),
      Evaluator.eval fn' ((Evaluator.eval fn ev).2)
        = ((Evaluator.eval fn ev).1, (Evaluator.eval fn ev).2)) := by
  have hcached : ∀ (fn : Geom → Segment → Result) (ev : Evaluator) (r : List Effect),
      ev._evaluation = some r → Evaluator.eval fn ev = (r, ev) := by
    intro fn ev r h
    unfold Evaluator.eval
    rw [h]
  refine ⟨hcached, ?_⟩
  intro fn fn' ev
  cases hev : ev._evaluation with
  | some r =>
    rw [hcached fn ev r hev]
    exact hcached fn' ev r hev
  | none =>
    have hnone : Evaluator.eval fn ev = ((Evaluator.perform_evaluation fn ev).1,
        { (Evaluator.perform_evaluation fn ev).2 with
          _evaluation := some (Evaluator.perform_evaluation fn ev).1 }) := by
      unfold Evaluator.eval
      rw [hev]
    rw [hnone]
    exact hcached fn' _ _ rfl

/-- Witness for C7: reads on an evaluator whose buffer holds the empty
sequence. -/
theorem eval_buffered_stable_w :
    evCachedEmpty._evaluation = some [] ∧
    Evaluator.eval revealFn evCachedEmpty = ([], evCachedEmpty) ∧
    Evaluator.eval emptyFn ((Evaluator.eval revealFn evCachedEmpty).2)
      = ((Evaluator.eval revealFn evCachedEmpty).1,
        (Evaluator.eval revealFn evCachedEmpty).2) :=
  ⟨rfl, eval_buffered_stable.1 revealFn evCachedEmpty [] rfl,
    eval_buffered_stable.2 revealFn emptyFn evCachedEmpty⟩

/-- C8: `clear` resets only the evaluation buffer — candidate list, start,
direction and the maximum-effect-length buffer are untouched — and a buffered
maximum effect length is served as-is after a `clear`, never recomputed. -/
theorem clear_only_discards_evaluation (ev : Evaluator) :
    (Evaluator.clear ev).parts = ev.parts ∧
    (Evaluator.clear ev).start = ev.start ∧
    (Evaluator.clear ev).dir = ev.dir ∧
    (Evaluator.clear ev).mel_buffer = ev.mel_buffer ∧
    (Evaluator.clear ev)._evaluation = none ∧
    (∀ v, ev.mel_buffer = some v →
      Evaluator.max_effect_length (Evaluator.clear ev) = (v, Evaluator.clear ev)) := by
  refine ⟨rfl, rfl, rfl, rfl, rfl, ?_⟩
  intro v h
  have hcl : (Evaluator.clear ev).mel_buffer = some v := h
  unfold Evaluator.max_effect_length
  rw [hcl]

/-- Witness for C8: the sample evaluator whose maximum-effect-length buffer
holds 7. -/
theorem clear_only_discards_evaluation_w :
    evMel7.mel_buffer = some 7 ∧
    Evaluator.max_effect_length (Evaluator.clear evMel7) = (7, Evaluator.clear evMel7) ∧
    (Evaluator.clear evMel7).mel_buffer = some 7 ∧
    (Evaluator.clear evMel7)._evaluation = none :=
  ⟨rfl, (clear_only_discards_evaluation evMel7).2.2.2.2.2 7 rfl, rfl, rfl⟩

/-- C9: for a truthy effect the start and end points are defined and are the
first vertex of the first edge and the last vertex of the last edge of the
result boundary; for a falsy effect both accesses fail (the indexing into the
empty edge list yields nothing). -/
theorem effect_endpoints_defined_iff_truthy (e : Effect) :
    (e.toBool = true →
      (∃ ed, e.result.head? = some ed ∧ e.start_point? = some ed.vfirst) ∧
      (∃ ed, e.result.getLast? = some ed ∧ e.end_point? = some ed.lastVertex)) ∧
    (e.toBool = false → e.start_point? = none ∧ e.end_point? = none) := by
  constructor
  · intro ht
    have hne : e.result ≠ [] := by
      simpa [Effect.toBool, List.isEmpty_iff] using ht
    obtain ⟨ed, rest, hr⟩ := List.exists_cons_of_ne_nil hne
    constructor
    · refine ⟨ed, by rw [hr]; rfl, ?_⟩
      unfold Effect.start_point?
      rw [hr]
      rfl
    · cases hgl : e.result.getLast? with
      | none =>
        exact absurd (List.getLast?_eq_none_iff.mp hgl) hne
      | some ed2 =>
        refine ⟨ed2, rfl, ?_⟩
        unfold Effect.end_point?
        rw [hgl]
        rfl
  · intro hf
    have hnil : e.result = [] := by
      simpa [Effect.toBool, List.isEmpty_iff] using hf
    constructor
    · unfold Effect.start_point?
      rw [hnil]
      rfl
    · unfold Effect.end_point?
      rw [hnil]
      rfl

/-- Witness for C9: a truthy sample effect (one edge, vertices (1, 2, 3) and
(4, 5, 6)) and a falsy sample effect (no edge). -/
theorem effect_endpoints_defined_iff_truthy_w :
    effTruthy.toBool = true ∧ effFalsy.toBool = false ∧
    (∃ ed, effTruthy.result.head? = some ed ∧ effTruthy.start_point? = some ed.vfirst) ∧
    (∃ ed, effTruthy.result.getLast? = some ed ∧ effTruthy.end_point? = some ed.lastVertex) ∧
    effFalsy.start_point? = none ∧ effFalsy.end_point? = none := by
  have ht := (effect_endpoints_defined_iff_truthy effTruthy).1 rfl
  have hf := (effect_endpoints_defined_iff_truthy effFalsy).2 rfl
  exact ⟨rfl, rfl, ht.1, ht.2, hf.1, hf.2⟩

/-- C10: the two subclasses declare nothing of their own — construction and
every operation coincide with the base evaluator. -/
theorem subclasses_observationally_equal (parts : List Part) (start dir : Vec)
    (fn : Geom → Segment → Result) :
    (mkVectorEvaluator parts start dir : Evaluator) = mkEvaluator parts start dir ∧
    (mkCylinderEvaluator parts start dir : Evaluator) = mkEvaluator parts start dir ∧
    Evaluator.max_effect_length (mkVectorEvaluator parts start dir)
      = Evaluator.max_effect_length (mkEvaluator parts start dir) ∧
    Evaluator.eval fn (mkVectorEvaluator parts start dir)
      = Evaluator.eval fn (mkEvaluator parts start dir) ∧
    Evaluator.clear (mkVectorEvaluator parts start dir)
      = Evaluator.clear (mkEvaluator parts start dir) ∧
    Evaluator.max_effect_length (mkCylinderEvaluator parts start dir)
      = Evaluator.max_effect_length (mkEvaluator parts start dir) ∧
    Evaluator.eval fn (mkCylinderEvaluator parts start dir)
      = Evaluator.eval fn (mkEvaluator parts start dir) ∧
    Evaluator.clear (mkCylinderEvaluator parts start dir)
      = Evaluator.clear (mkEvaluator parts start dir) :=
  ⟨rfl, rfl, rfl, rfl, rfl, rfl, rfl, rfl⟩

end Cqparts
